import Mathlib

/-!
Verification of the BPY331 payment-aggregation program
(`aggregate_payments.py`, with its two test files) against its
natural-language specification.

The Python source is shallowly embedded: each Python function becomes a
Lean function over explicit data (strings as `String`, records as a
`Payment` structure, the grouping dictionary as an insertion-ordered
association list, IEEE-754 binary64 arithmetic as exact dyadic rationals
represented by an integer mantissa and exponent).  Fallible operations
(list indexing that can raise `IndexError`, `float()` parsing that can
raise `ValueError`) return `Option`.
-/

set_option autoImplicit false
set_option maxRecDepth 100000

namespace PayAgg

/-! ## Basic string helpers -/

/-- Numeric value of a digit character, as used by Python `int` on single
characters (`'0'` has code 48). -/
def digitVal (c : Char) : ℕ := c.toNat - 48

/-- Value of `int` applied to a string of decimal digit characters. -/
def decimalVal (l : List Char) : ℕ := l.foldl (fun a c => 10 * a + digitVal c) 0

/-- Embedding of `s.replace('"', '').replace(' ', '')`: removes every
double-quote and every space character. -/
def stripQS (s : String) : String :=
  String.mk (s.data.filter (fun c => !(c == '"' || c == ' ')))

/-! ## The Payment record

Fields in the exact order of the `defaults` dictionary of
`Payment.__init__`, which is also the order in which `write_payments`
serializes a record (Python dictionaries preserve insertion order, and
keyword updates do not move existing keys).  The field `claimant_adddress`
keeps the source's spelling.  The three date-stamped defaults depend on
the run-scoped `SYSTIME` value, threaded through as an explicit `st`
parameter. -/

structure Payment where
  interface_source : String
  batch_run_id : String
  posting_ref : String
  account_ref : String
  payee_type : String
  payee_name : String
  payee_address : String
  claim_ref : String
  claimant_name : String
  claimant_adddress : String
  amount : String
  posting_start_date : String
  posting_end_date : String
  payment_method : String
  creditor_account_ref : String
  bank_sort_code : String
  bank_account_num : String
  bank_account_name : String
  building_society_num : String
  post_office_name : String
  post_office_address : String
  collection_flag : String
  document_num : String
  document_type : String
  replacement_flag : String
  effective_date : String
  blank_one : String
  blank_two : String
  document_date : String
  deriving DecidableEq, Repr

/-- The `defaults` template of `Payment.__init__`, with the run-scoped
`SYSTIME` string passed explicitly as `st`. -/
def defaultPayment (st : String) : Payment where
  interface_source := "\"BEN\""
  batch_run_id := "\"batch_run_id\""
  posting_ref := "\"posting_ref\""
  account_ref := "\"NOT_YET_SET\""
  payee_type := "\"CL\""
  payee_name := "\"payee_name\""
  payee_address := "\"payee_address\""
  claim_ref := "\"claim_ref\""
  claimant_name := "\"Aggregated DHP UC Payment\""
  claimant_adddress := "\"Aggregated DHP UC Payment\""
  amount := "\"amount\""
  posting_start_date := "\"" ++ st ++ "\""
  posting_end_date := "\"" ++ st ++ "\""
  payment_method := "\"BACS\""
  creditor_account_ref := "\"\""
  bank_sort_code := "\"bank_sort_code\""
  bank_account_num := "\"bank_account_num\""
  bank_account_name := "\"bank_account_name\""
  building_society_num := "\"building_society_num\""
  post_office_name := "\"\""
  post_office_address := "\"\""
  collection_flag := "\"N\""
  document_num := "\"\""
  document_type := "\"\""
  replacement_flag := "\"N\""
  effective_date := "\"" ++ st ++ "\""
  blank_one := "\"\""
  blank_two := "\"\""
  document_date := "\"\""

/-! ## Identity resolver: `gen_account_ref` and `set_account_ref` -/

/-- One step of `Payment.gen_account_ref`: multiplies every element at an
odd zero-based index by 2 (the list comprehension over `enumerate`). -/
def doubleOdds : ℕ → List ℕ → List ℕ
  | _, [] => []
  | i, n :: l => (if i % 2 ≠ 0 then n * 2 else n) :: doubleOdds (i + 1) l

/-- One step of `Payment.gen_account_ref`: re-reads the concatenated
decimal digits of a list of numbers below 100, so a two-digit entry
becomes two one-digit entries (the `join`/`int` round trip). -/
def splitTens : List ℕ → List ℕ
  | [] => []
  | n :: l => if n < 10 then n :: splitTens l else n / 10 :: n % 10 :: splitTens l

/-- The check-digit computation inside `Payment.gen_account_ref`
(lines 126-140 of `aggregate_payments.py`): strip hyphens, double every
second digit, split two-digit values, sum, and complement mod 10 with the
explicit `if checkdig == 10` fix-up. -/
def checkdig (sort_code : String) : ℕ :=
  let sort_digits := ((sort_code.data.filter (fun c => !(c == '-'))).map digitVal)
  let doubles := splitTens (doubleOdds 0 sort_digits)
  let c := 10 - doubles.sum % 10
  if c = 10 then 0 else c

/-- The mod-26 letter computation inside `Payment.gen_account_ref`
(lines 141-147): `int(account_num[:2]) % 26`, mapping 0 to `'A'` and
`m` to `chr(m + 64)` otherwise. -/
def mod_char (account_num : String) : Char :=
  let mod_digs := decimalVal (account_num.data.take 2) % 26
  if mod_digs = 0 then 'A' else Char.ofNat (mod_digs + 64)

/-- Embedding of `Payment.gen_account_ref`: the quoted string made of the
mod-26 letter, the account number without its first two characters, and
the check digit. -/
def gen_account_ref (sort_code account_num : String) : String :=
  "\"" ++ String.singleton (mod_char account_num) ++
    String.mk (account_num.data.drop 2) ++
    String.singleton (Char.ofNat (48 + checkdig sort_code)) ++ "\""

/-- Embedding of `Payment.set_account_ref`: recomputes the account and
claim references only when the building-society field is exactly the
four-character string `"0" ` (quoted zero followed by a space); any other
value keeps the caller-supplied originals. -/
def set_account_ref (p : Payment) (orig_ref orig_claim : String) : Payment :=
  let sort_code := stripQS p.bank_sort_code
  let account_num := stripQS p.bank_account_num
  if p.building_society_num = "\"0\" " then
    let account_ref := gen_account_ref sort_code account_num
    { p with account_ref := account_ref, claim_ref := account_ref }
  else
    { p with account_ref := orig_ref, claim_ref := orig_claim }

/-! ## Exact IEEE-754 binary64 arithmetic

`sum_payments` accumulates `float` values.  A finite binary64 value is a
dyadic rational; `Dy` stores it exactly as `m * 2 ^ e`.  `float` addition
is exact dyadic addition followed by rounding the result to 53 significant
bits with ties to even, and `'{:.2f}'.format` is correct rounding of the
exact value to two decimal places with ties to even — both are computed
here on the exact representation. -/

/-- A dyadic rational `m * 2 ^ e`; every finite binary64 value has this
form. -/
structure Dy where
  m : ℤ
  e : ℤ
  deriving DecidableEq, Repr

/-- The number of binary digits of a natural number (0 for 0), computed
with explicit fuel so that it reduces in the kernel. -/
def bitlenAux : ℕ → ℕ → ℕ
  | 0, _ => 0
  | fuel + 1, n => if n = 0 then 0 else bitlenAux fuel (n / 2) + 1

def bitlen (n : ℕ) : ℕ := bitlenAux 4096 n

/-- Exact addition of dyadic rationals: align to the smaller exponent. -/
def dyAdd (x y : Dy) : Dy :=
  if x.e ≤ y.e then ⟨x.m + y.m * 2 ^ (y.e - x.e).toNat, x.e⟩
  else ⟨x.m * 2 ^ (x.e - y.e).toNat + y.m, y.e⟩

/-- Round a natural number to at most 53 significant bits, ties to even,
returning the rounded mantissa and the number of bits dropped. -/
def roundMant53 (mm : ℕ) : ℕ × ℕ :=
  let b := bitlen mm
  if b ≤ 53 then (mm, 0)
  else
    let shift := b - 53
    let B := 2 ^ shift
    let q := mm / B
    let r := mm % B
    let half := B / 2
    let q' := if half < r then q + 1 else if r < half then q
      else if q % 2 = 0 then q else q + 1
    (q', shift)

/-- Round an exact dyadic value to binary64 precision (53 significant
bits, round to nearest, ties to even). -/
def round53 (x : Dy) : Dy :=
  if x.m = 0 then ⟨0, 0⟩
  else
    let mm := x.m.natAbs
    let (q, shift) := roundMant53 mm
    ⟨if x.m < 0 then -(q : ℤ) else (q : ℤ), x.e + shift⟩

/-- Binary64 addition: round the exact sum. -/
def fadd (x y : Dy) : Dy := round53 (dyAdd x y)

/-- Whether `2 ^ c ≤ a / b` for naturals `a`, `b > 0`. -/
def pow2le (c : ℤ) (a b : ℕ) : Bool :=
  if 0 ≤ c then b * 2 ^ c.toNat ≤ a else b ≤ a * 2 ^ (-c).toNat

/-- Floor of the base-2 logarithm of `a / b` for `a, b > 0`. -/
def flog2 (a b : ℕ) : ℤ :=
  let cand : ℤ := (bitlen a : ℤ) - 1 - ((bitlen b : ℤ) - 1)
  if pow2le cand a b then cand else cand - 1

/-- The binary64 value nearest to the decimal fraction `a / 10 ^ k`
(round to nearest, ties to even), as computed by Python `float` on a
decimal literal. -/
def dec2double (a k : ℕ) : Dy :=
  if a = 0 then ⟨0, 0⟩
  else
    let b := 10 ^ k
    let e := flog2 a b - 52
    let AB : ℕ × ℕ := if 0 ≤ e then (a, b * 2 ^ e.toNat) else (a * 2 ^ (-e).toNat, b)
    let q := AB.1 / AB.2
    let r := AB.1 % AB.2
    let n := if AB.2 < 2 * r then q + 1 else if 2 * r < AB.2 then q
      else if q % 2 = 0 then q else q + 1
    ⟨(n : ℤ), e⟩

/-- Splits a character list at the first `'.'`. -/
def splitDot : List Char → List Char × Option (List Char)
  | [] => ([], none)
  | c :: rest =>
    if c == '.' then ([], some rest)
    else
      let p := splitDot rest
      (c :: p.1, p.2)

def isDigitCh (c : Char) : Bool := 48 ≤ c.toNat && c.toNat ≤ 57

/-- Embedding of Python `float` on a plain decimal literal (optional
leading minus sign, digits, optional decimal point): returns the sign and
the value as `a / 10 ^ k`, or `none` when the text is not such a literal
(`float` raises `ValueError`). -/
def parseDec (s : String) : Option (Bool × ℕ × ℕ) :=
  let l := s.data
  let (neg, l') : Bool × List Char :=
    match l with
    | '-' :: rest => (true, rest)
    | _ => (false, l)
  let (ip, fp) := splitDot l'
  let frac := fp.getD []
  if ip.all isDigitCh && frac.all isDigitCh && !(ip.isEmpty && frac.isEmpty)
      && !(frac.any (fun c => c == '.')) then
    some (neg, decimalVal (ip ++ frac), frac.length)
  else none

/-- Embedding of `float(amount)` after the quote-and-space stripping in
`sum_payments`. -/
def parseFloat (s : String) : Option Dy :=
  (parseDec s).map fun (neg, a, k) =>
    let d := dec2double a k
    if neg then ⟨-d.m, d.e⟩ else d

/-- Decimal-digit string of a natural number (fuel-based so that it
reduces in the kernel); matches Python's decimal rendering. -/
def natDigStrAux : ℕ → ℕ → String
  | 0, _ => ""
  | fuel + 1, n =>
    if n < 10 then String.singleton (Char.ofNat (48 + n))
    else natDigStrAux fuel (n / 10) ++ String.singleton (Char.ofNat (48 + n % 10))

def natDigStr (n : ℕ) : String := natDigStrAux 64 n

/-- Embedding of `'{:.2f}'.format` on a finite binary64 value: correct
rounding of the exact value to two decimal places, ties to even. -/
def format2f (x : Dy) : String :=
  let mm := x.m.natAbs * 100
  let N :=
    if 0 ≤ x.e then mm * 2 ^ x.e.toNat
    else
      let B := 2 ^ (-x.e).toNat
      let q := mm / B
      let r := mm % B
      let half := B / 2
      if half < r then q + 1 else if r < half then q
      else if q % 2 = 0 then q else q + 1
  (if x.m < 0 then "-" else "") ++ natDigStr (N / 100) ++ "." ++
    String.singleton (Char.ofNat (48 + N % 100 / 10)) ++
    String.singleton (Char.ofNat (48 + N % 100 % 10))

/-! ## The aggregator: `sum_payments` -/

/-- The accumulation loop of `sum_payments`: `total` starts at 0 and each
iteration performs `total += float(amount)` on the quote-stripped amount;
a non-numeric amount raises `ValueError`, modelled as `none`. -/
def totalAmount : List Payment → Dy → Option Dy
  | [], t => some t
  | p :: ps, t =>
    match parseFloat (stripQS p.amount) with
    | none => none
    | some x => totalAmount ps (fadd t x)

/-- The body of the `sum_payments` loop for one dictionary value: sums the
amounts, formats the total to two decimal places with the quotes added
back, and builds the new `Payment` from the first member's fields
(`payments[0]` raises `IndexError` on an empty group, modelled as
`none`). -/
def sumGroup (st : String) (payments : List Payment) : Option Payment :=
  match payments with
  | [] => none
  | p0 :: _ =>
    (totalAmount payments ⟨0, 0⟩).map fun t =>
      { defaultPayment st with
          batch_run_id := p0.batch_run_id
          posting_ref := p0.posting_ref
          account_ref := p0.account_ref
          payee_name := p0.payee_name
          payee_address := p0.payee_address
          claim_ref := p0.claim_ref
          amount := "\"" ++ format2f t ++ "\""
          bank_sort_code := p0.bank_sort_code
          bank_account_num := p0.bank_account_num
          bank_account_name := p0.bank_account_name
          building_society_num := p0.building_society_num }

/-- Embedding of `sum_payments`: one aggregate `Payment` per dictionary
entry, in dictionary (insertion) order. -/
def sum_payments (st : String) : List (String × List Payment) → Option (List Payment)
  | [] => some []
  | (_, g) :: rest =>
    match sumGroup st g with
    | none => none
    | some p =>
      match sum_payments st rest with
      | none => none
      | some l => some (p :: l)

/-! ## Spec-side description of the aggregate amount -/

/-- Parses every amount of a group as an exact signed decimal
`n / 10 ^ k` (quotes and spaces stripped first, as the code does). -/
def parseDecs : List String → Option (List (ℤ × ℕ))
  | [] => some []
  | a :: l =>
    match parseDec (stripQS a), parseDecs l with
    | some (neg, n, k), some rest =>
      some ((if neg then -(n : ℤ) else (n : ℤ), k) :: rest)
    | _, _ => none

/-- Exact addition of decimal fractions over a common power-of-ten
scale. -/
def addDec (x y : ℤ × ℕ) : ℤ × ℕ :=
  let k := max x.2 y.2
  (x.1 * 10 ^ (k - x.2) + y.1 * 10 ^ (k - y.2), k)

/-- `100 *` the value of a decimal fraction, rounded to the nearest
integer with ties away from zero (standard half-up decimal rounding to
two decimal places). -/
def halfUp2 (x : ℤ × ℕ) : ℤ :=
  if x.2 ≤ 2 then x.1 * 10 ^ (2 - x.2)
  else
    let D := 10 ^ (x.2 - 2)
    if 0 ≤ x.1 then ((x.1.toNat + D / 2) / D : ℕ)
    else -((((-x.1).toNat + D / 2) / D : ℕ) : ℤ)

/-- The aggregate amount as the specification words it: the exact decimal
sum of the member amounts, rounded to two decimal places with half-up
decimal rounding, rendered with two decimals and re-quoted.  This follows
the specification's sentence, for comparison with the code's
floating-point pipeline. -/
def specHalfUpAmount (amounts : List String) : Option String :=
  (parseDecs amounts).map fun ds =>
    let M := halfUp2 (ds.foldl addDec (0, 0))
    "\"" ++ (if M < 0 then "-" else "") ++ natDigStr (M.natAbs / 100) ++ "." ++
      String.singleton (Char.ofNat (48 + M.natAbs % 100 / 10)) ++
      String.singleton (Char.ofNat (48 + M.natAbs % 100 % 10)) ++ "\""

/-- The binary64 sum of a list of on-disk amount strings, folded in list
order starting from 0, exactly as the `sum_payments` loop accumulates
`total`. -/
def floatSumAmounts (amounts : List String) : Option Dy :=
  amounts.foldl
    (fun acc a => acc.bind fun t => (parseFloat (stripQS a)).map (fadd t))
    (some ⟨0, 0⟩)

/-- A payment that differs from the defaults only in its amount field. -/
def amtPayment (st a : String) : Payment := { defaultPayment st with amount := a }

/-- The first test group of `tests/test_payments.py`. -/
def groupA : List Payment :=
  ["\"535.71\"", "\"232.57\"", "\"465.01\"", "\"143.08\"", "\"4095.00\""].map
    (amtPayment "ST")

/-- The 21-member test group of `tests/test_payments.py`. -/
def groupB : List Payment :=
  ["\"1503.33\"", "\"891.00\"", "\"422.13\"", "\"42.15\"", "\"166.59\"",
   "\"73.98\"", "\"95.12\"", "\"1922.78\"", "\"38.79\"", "\"140.38\"",
   "\"786.33\"", "\"41.76\"", "\"81.53\"", "\"33.75\"", "\"43.39\"",
   "\"212.97\"", "\"415.80\"", "\"142.14\"", "\"87.99\"", "\"531.25\"",
   "\"528.90\""].map (amtPayment "ST")

/-- The singleton test group of `tests/test_payments.py`. -/
def groupC : List Payment := ["\"3025.00\""].map (amtPayment "ST")

/-! ## Grouping: `create_keys` and `assign_keys` -/

/-- The primary key built in `create_keys` and `assign_keys`:
`account_ref[1:-1]` and `building_society_num[1:-2]` joined by a
forward slash (Python slices, so the quotes are removed positionally, not
by searching for quote characters). -/
def pkey (p : Payment) : String :=
  String.mk ((p.account_ref.data.drop 1).dropLast) ++ "/" ++
    String.mk (((p.building_society_num.data.drop 1).dropLast).dropLast)

/-- The dictionary comprehension `{k: [] for k in keys}` of `create_keys`:
one entry per distinct key, in first-occurrence order, each value the
empty list.  `seen` carries the keys already inserted. -/
def mkKeys (seen : List String) : List String → List (String × List Payment)
  | [] => []
  | k :: ks => if k ∈ seen then mkKeys seen ks else (k, []) :: mkKeys (k :: seen) ks

/-- Embedding of `create_keys`. -/
def create_keys (payments : List Payment) : List (String × List Payment) :=
  mkKeys [] (payments.map pkey)

/-- One iteration of the inner loop of `assign_keys`: appends the payment
to every entry whose key matches (at most one, since dictionary keys are
unique). -/
def addToKey (d : List (String × List Payment)) (k : String) (p : Payment) :
    List (String × List Payment) :=
  d.map fun e => if e.1 = k then (e.1, e.2 ++ [p]) else e

/-- Embedding of `assign_keys`. -/
def assign_keys (payments : List Payment) (keys : List (String × List Payment)) :
    List (String × List Payment) :=
  payments.foldl (fun d p => addToKey d (pkey p) p) keys

/-- Normalization in the specification's GroupKey description ("quotes and
surrounding whitespace stripped"): drops every surrounding double-quote
and space character from both ends of the string. -/
def specNormalize (s : String) : String :=
  String.mk
    (((s.data.dropWhile (fun c => c == '"' || c == ' ')).reverse.dropWhile
      (fun c => c == '"' || c == ' ')).reverse)

/-- A building-society payment whose field is the bare quoted zero, with
no trailing space after the closing quote. -/
def bs0Payment : Payment :=
  { defaultPayment "01-JAN-2026" with
      bank_sort_code := "\"40-35-03\"",
      bank_account_num := "\"12345678\"",
      building_society_num := "\"0\"" }

/-- The same payment with the on-disk four-character field `"0" `
(quoted zero followed by a space). -/
def bs0SpacePayment : Payment :=
  { defaultPayment "01-JAN-2026" with
      bank_sort_code := "\"40-35-03\"",
      bank_account_num := "\"12345678\"",
      building_society_num := "\"0\" " }

/-! ## The record parser: `create_payments` -/

/-- List indexing as Python performs it (`records[i]` for a non-negative
index), `none` on an out-of-range index (`IndexError`). -/
def nth : List String → ℕ → Option String
  | [], _ => none
  | a :: _, 0 => some a
  | _ :: l, n + 1 => nth l n

/-- One iteration of the `create_payments` loop: builds the `Payment`
for the block starting at line `i` from the fixed offsets (note that both
`payee_name` and `bank_account_name` read line `i + 17`), then resolves
its references with the originals read from lines `i + 3` and `i + 7`;
any out-of-range access is an `IndexError`, modelled as `none`. -/
def mkPaymentAt (st : String) (records : List String) (i : ℕ) : Option Payment :=
  (nth records (i + 1)).bind fun batch =>
  (nth records (i + 2)).bind fun post =>
  (nth records (i + 17)).bind fun name17 =>
  (nth records (i + 6)).bind fun addr =>
  (nth records (i + 10)).bind fun amt =>
  (nth records (i + 15)).bind fun sortc =>
  (nth records (i + 16)).bind fun acct =>
  (nth records (i + 18)).bind fun bsn =>
  (nth records (i + 3)).bind fun oref =>
  (nth records (i + 7)).map fun oclaim =>
    set_account_ref
      { defaultPayment st with
          batch_run_id := batch
          posting_ref := post
          payee_name := name17
          payee_address := addr
          amount := amt
          bank_sort_code := sortc
          bank_account_num := acct
          bank_account_name := name17
          building_society_num := bsn } oref oclaim

/-- The `for i in range(1, len(records), 29)` loop of `create_payments`.
The fuel argument bounds the number of remaining iterations; it is
initialized to `records.length`, which always suffices because every
iteration advances `i` by 29. -/
def aggLoop (st : String) (records : List String) : ℕ → ℕ → Option (List Payment)
  | 0, i => if i < records.length then none else some []
  | fuel + 1, i =>
    if i < records.length then
      (mkPaymentAt st records i).bind fun p =>
        (aggLoop st records fuel (i + 29)).map fun l => p :: l
    else some []

/-- Embedding of `create_payments` on the line list of a file. -/
def create_payments (st : String) (records : List String) : Option (List Payment) :=
  aggLoop st records records.length 1

/-! ## The serializer -/

/-- The per-record output of `write_payments`: every `Payment` attribute
except the internal `defaults` dictionary, one line per field, in the
insertion order of the `defaults` template (Python dictionaries preserve
insertion order, and keyword updates do not move existing keys). -/
def serializePayment (p : Payment) : List String :=
  [p.interface_source, p.batch_run_id, p.posting_ref, p.account_ref,
   p.payee_type, p.payee_name, p.payee_address, p.claim_ref,
   p.claimant_name, p.claimant_adddress, p.amount, p.posting_start_date,
   p.posting_end_date, p.payment_method, p.creditor_account_ref,
   p.bank_sort_code, p.bank_account_num, p.bank_account_name,
   p.building_society_num, p.post_office_name, p.post_office_address,
   p.collection_flag, p.document_num, p.document_type, p.replacement_flag,
   p.effective_date, p.blank_one, p.blank_two, p.document_date]

/-- A header plus a 20-line body: 20 is not a multiple of 29, yet the
last (only) partial block still has its highest read offset in range. -/
def malformedFile : List String :=
  ["HDR", "L01", "L02", "L03", "L04", "L05", "L06", "L07", "L08", "L09",
   "L10", "L11", "L12", "L13", "L14", "L15", "L16", "L17", "L18", "L19",
   "L20"]

/-- The payment `create_payments` silently builds from the truncated
20-line block of `malformedFile`. -/
def truncatedPayment : Payment :=
  { defaultPayment "ST" with
      batch_run_id := "L02", posting_ref := "L03", payee_name := "L18",
      payee_address := "L07", amount := "L11", bank_sort_code := "L16",
      bank_account_num := "L17", bank_account_name := "L18",
      building_society_num := "L19", account_ref := "L04",
      claim_ref := "L08" }

/-! ## The rewriter: `write_payments`

`write_payments` is modelled as the ordered list of primitive file
mutations it performs; running a prefix of that list models a failure
part-way through the write. -/

/-- A file system: an association list from path to the file's lines. -/
abbrev FS := List (String × List String)

def fsGet : FS → String → Option (List String)
  | [], _ => none
  | e :: fs, p => if e.1 = p then some e.2 else fsGet fs p

def fsSet : FS → String → List String → FS
  | [], p, v => [(p, v)]
  | e :: fs, p, v => if e.1 = p then (p, v) :: fs else e :: fsSet fs p v

/-- The primitive file mutations of `write_payments`: `shutil.copy2`, the
truncation performed by `open(path, 'w')`, and one `write` call per
line (appending to the open file, which the truncation has emptied, or to
a log opened in append mode). -/
inductive FOp where
  | copy (src dst : String)
  | truncate (path : String)
  | writeLine (path : String) (line : String)
  deriving DecidableEq, Repr

def FOp.target : FOp → String
  | .copy _ dst => dst
  | .truncate p => p
  | .writeLine p _ => p

def applyOp (fs : FS) : FOp → FS
  | .copy src dst =>
    match fsGet fs src with
    | some content => fsSet fs dst content
    | none => fs
  | .truncate p => fsSet fs p []
  | .writeLine p l => fsSet fs p (((fsGet fs p).getD []) ++ [l])

def alreadyCheckedLog : String := ".\\already_checked.log"

def paymentsLog : String := ".\\payments.log"

/-- The success line `write_payments` appends to the run log, with the
run-scoped `WRITETIME` passed as `wt` (the loop counter always ends equal
to the list length). -/
def successLine (wt : String) (n : ℕ) (path : String) : String :=
  wt ++ " - Successfully written " ++ natDigStr n ++ "/" ++ natDigStr n ++
    " payments to " ++ path

/-- The mutation trace of `write_payments`: copy the original to the
backup path, truncate the source in place, write the header (read from
the still-unmodified source) and every field line of every aggregate
payment directly to the source path, then append to the two logs.  No
temporary file is involved: the third step onward mutates the source
itself. -/
def wpOps (fs : FS) (path backup wt : String) (new_payments : List Payment) :
    List FOp :=
  FOp.copy path backup :: FOp.truncate path ::
    FOp.writeLine path (((fsGet fs path).getD []).headD "") ::
    ((new_payments.map fun p => (serializePayment p).map (FOp.writeLine path)).flatten
      ++ [FOp.writeLine alreadyCheckedLog path,
          FOp.writeLine paymentsLog (successLine wt new_payments.length path)])

/-- The file system after the first `k` primitive steps of
`write_payments` (a failure after step `k` leaves exactly this state). -/
def wpRun (fs : FS) (path backup wt : String) (new_payments : List Payment)
    (k : ℕ) : FS :=
  ((wpOps fs path backup wt new_payments).take k).foldl applyOp fs

/-- A payment whose account reference is the bare quoted `"A"`. -/
def cexPay1 : Payment :=
  { defaultPayment "ST" with
      account_ref := "\"A\"", building_society_num := "\"1\" " }

/-- A payment whose account reference carries a trailing space after the
closing quote; it normalizes to the same value as `cexPay1`'s. -/
def cexPay2 : Payment :=
  { defaultPayment "ST" with
      account_ref := "\"A\" ", building_society_num := "\"1\" " }

end PayAgg

namespace PayAgg

/-! ## C1: the aggregate amount -/

theorem foldl_bind_none (step : Option Dy → String → Option Dy)
    (hstep : ∀ a, step none a = none) (l : List String) :
    l.foldl step none = none := by
  induction l with
  | nil => rfl
  | cons a l ih => simp [hstep, ih]

/-- The `sum_payments` accumulation loop equals a fold over the raw
amount strings of the group. -/
theorem totalAmount_eq_foldl (ps : List Payment) (t : Dy) :
    totalAmount ps t
      = (ps.map Payment.amount).foldl
          (fun acc a => acc.bind fun u => (parseFloat (stripQS a)).map (fadd u))
          (some t) := by
  induction ps generalizing t with
  | nil => rfl
  | cons p ps ih =>
    cases hp : parseFloat (stripQS p.amount) with
    | none =>
      simp only [totalAmount, hp, List.map_cons, List.foldl_cons,
        Option.some_bind, Option.map_none']
      exact (foldl_bind_none _ (fun a => rfl) _).symm
    | some x =>
      simp only [totalAmount, hp, List.map_cons, List.foldl_cons,
        Option.some_bind, Option.map_some']
      exact ih (fadd t x)

/-- C1 counterexample: the claim prescribes half-up decimal rounding of
the exact sum, but the code sums binary64 floats and formats with
`'{:.2f}'`, which rounds the exact binary value with ties to even; on the
one-member group with amount `"0.015"` the code yields `"0.01"` while the
claimed half-up rounding of the exact sum yields `"0.02"`. -/
theorem C1_counterexample :
    (sum_payments "ST" [("k", [amtPayment "ST" "\"0.015\""])]).map
        (List.map Payment.amount) = some ["\"0.01\""]
    ∧ specHalfUpAmount ([amtPayment "ST" "\"0.015\""].map Payment.amount)
        = some "\"0.02\"" := by
  decide

/-- C1 (amended): for every non-empty group, the aggregate `Payment`
produced by `sum_payments` has as amount the binary64 floating-point sum
of the member amounts (parsed after stripping the on-disk double quotes),
formatted to two decimal places by the formatter's correct rounding (ties
to even) and re-quoted; in particular the group
`[535.71, 232.57, 465.01, 143.08, 4095.00]` yields `5471.37`, the
21-member test group yields `8202.06`, and the singleton `[3025.00]`
yields `3025.00`. -/
theorem C1_sum_payments_float (st : String) (kv : List (String × List Payment))
    (res : List Payment) (h : sum_payments st kv = some res) :
    List.Forall₂
      (fun (e : String × List Payment) (q : Payment) =>
        e.2 ≠ []
          ∧ some q.amount
            = (floatSumAmounts (e.2.map Payment.amount)).map
                (fun t => "\"" ++ format2f t ++ "\"")) kv res
    ∧ (sum_payments "ST" [("k", groupA)]).map (List.map Payment.amount)
        = some ["\"5471.37\""]
    ∧ (sum_payments "ST" [("k", groupB)]).map (List.map Payment.amount)
        = some ["\"8202.06\""]
    ∧ (sum_payments "ST" [("k", groupC)]).map (List.map Payment.amount)
        = some ["\"3025.00\""] := by
  refine ⟨?_, by decide, by decide, by decide⟩
  induction kv generalizing res with
  | nil =>
    unfold sum_payments at h
    cases h
    exact List.Forall₂.nil
  | cons e rest ih =>
    obtain ⟨k, g⟩ := e
    unfold sum_payments at h
    cases hg : sumGroup st g with
    | none => rw [hg] at h; cases h
    | some p =>
      rw [hg] at h
      cases hr : sum_payments st rest with
      | none => rw [hr] at h; cases h
      | some l =>
        rw [hr] at h
        cases h
        refine List.Forall₂.cons ⟨?_, ?_⟩ (ih l hr)
        · intro hnil
          have hnil' : g = [] := hnil
          rw [hnil'] at hg
          exact Option.noConfusion hg
        · cases g with
          | nil => exact absurd hg (by simp [sumGroup])
          | cons p0 gs =>
            unfold sumGroup at hg
            cases ht : totalAmount (p0 :: gs) ⟨0, 0⟩ with
            | none => rw [ht] at hg; exact Option.noConfusion hg
            | some t =>
              rw [ht] at hg
              simp only [Option.map_some'] at hg
              cases hg
              have hfs : floatSumAmounts (List.map Payment.amount (p0 :: gs))
                  = totalAmount (p0 :: gs) ⟨0, 0⟩ := (totalAmount_eq_foldl _ _).symm
              show some ("\"" ++ format2f t ++ "\"")
                  = (floatSumAmounts (List.map Payment.amount (p0 :: gs))).map
                      (fun u => "\"" ++ format2f u ++ "\"")
              rw [hfs, ht]
              rfl

/-- C1 witness: the theorem instantiated at the singleton test group. -/
theorem C1_sum_payments_float_witness :
    (sum_payments "ST" [("k", groupC)]).map (List.map Payment.amount)
      = some ["\"3025.00\""] :=
  (C1_sum_payments_float "ST" [("k", groupC)] [amtPayment "ST" "\"3025.00\""]
    (by decide)).2.2.2

/-! ## C2: the Luhn check digit -/

/-- C2: for every sort code (hyphens stripped, each remaining character a
digit), the check digit computed inside `gen_account_ref` equals the Luhn
value `(10 - sum mod 10) mod 10` over the doubled-and-split digits; the
check digit for `"7992739871"` is 3 and for `"403503"` (also written
`"40-35-03"`) is 6, and the latter digit appears at the end of the
generated account reference. -/
theorem C2_luhn_check_digit (s : String)
    (_hdig : ∀ c ∈ s.data, c ≠ '-' → c.isDigit) :
    checkdig s =
      (10 -
        (splitTens (doubleOdds 0
          ((s.data.filter (fun c => !(c == '-'))).map digitVal))).sum % 10) % 10
    ∧ checkdig "7992739871" = 3 ∧ checkdig "403503" = 6
    ∧ checkdig "40-35-03" = 6
    ∧ gen_account_ref "40-35-03" "12345678" = "\"L3456786\"" := by
  refine ⟨?_, by decide, by decide, by decide, by decide⟩
  have key : ∀ t : ℕ,
      (if 10 - t % 10 = 10 then 0 else 10 - t % 10) = (10 - t % 10) % 10 := by
    intro t
    have h : t % 10 < 10 := Nat.mod_lt _ (by norm_num)
    split_ifs with h10 <;> omega
  exact key _

/-- C2 witness: the theorem instantiated at the repository's own sort-code
example `"40-35-03"`. -/
theorem C2_luhn_check_digit_witness :
    checkdig "40-35-03" =
      (10 -
        (splitTens (doubleOdds 0
          ((("40-35-03").data.filter (fun c => !(c == '-'))).map digitVal))).sum % 10) % 10 :=
  (C2_luhn_check_digit "40-35-03" (by decide)).1

/-! ## C3: the mod-26 letter -/

/-- C3 counterexample: the claim says account-number prefix `"27"` maps to
`'B'`, but the code maps `27 % 26 = 1` to `chr(1 + 64) = 'A'`; the letter
also lands in the `gen_account_ref` output. -/
theorem C3_counterexample :
    mod_char "27345678" ≠ 'B'
    ∧ mod_char "27345678" = 'A'
    ∧ gen_account_ref "40-35-03" "27345678" = "\"A3456786\"" := by
  decide

/-- C3 (amended): for every account number whose first two characters are
digits, the letter is `'A'` when the two-digit prefix is 0 mod 26 and
`chr('A' + n - 1)` when the prefix is `n` in 1..25 mod 26 (so both a
prefix of 0 and a prefix of 1 mod 26 yield `'A'`, and no prefix yields
`'Z'`); in particular `"00"`, `"26"` and `"27"` all map to `'A'`. -/
theorem C3_mod26_letter (s : String) (_hlen : 2 ≤ s.data.length)
    (_hdig : ∀ c ∈ s.data.take 2, c.isDigit) :
    mod_char s =
      (if decimalVal (s.data.take 2) % 26 = 0 then 'A'
       else Char.ofNat (65 + decimalVal (s.data.take 2) % 26 - 1))
    ∧ mod_char "00345678" = 'A' ∧ mod_char "26345678" = 'A'
    ∧ mod_char "27345678" = 'A' := by
  refine ⟨?_, by decide, by decide, by decide⟩
  have key : ∀ m : ℕ,
      (if m = 0 then 'A' else Char.ofNat (m + 64))
        = (if m = 0 then 'A' else Char.ofNat (65 + m - 1)) := by
    intro m
    rcases Nat.eq_zero_or_pos m with h | h
    · simp [h]
    · have harg : 65 + m - 1 = m + 64 := by omega
      simp [Nat.pos_iff_ne_zero.mp h, harg]
  exact key _

/-- C3 witness: the theorem instantiated at the account number
`"27345678"`. -/
theorem C3_mod26_letter_witness :
    mod_char "27345678" =
      (if decimalVal (("27345678").data.take 2) % 26 = 0 then 'A'
       else Char.ofNat (65 + decimalVal (("27345678").data.take 2) % 26 - 1)) :=
  (C3_mod26_letter "27345678" (by decide) (by decide)).1

/-! ## C4: the building-society special case -/

/-- C4 counterexample: a payment whose building-society field is the bare
quoted `"0"` (which the claim's normalization reads as the value 0, so the
claim demands a freshly computed identity) nonetheless keeps the
caller-supplied references, because the code compares the raw field
against the four-character string `"0" ` with a trailing space. -/
theorem C4_counterexample :
    specNormalize bs0Payment.building_society_num = "0"
    ∧ (set_account_ref bs0Payment "\"ORIG\"" "\"OCLM\"").account_ref = "\"ORIG\""
    ∧ (set_account_ref bs0Payment "\"ORIG\"" "\"OCLM\"").claim_ref = "\"OCLM\""
    ∧ gen_account_ref (stripQS bs0Payment.bank_sort_code)
        (stripQS bs0Payment.bank_account_num) ≠ "\"ORIG\"" := by
  decide

/-- C4 (amended): `set_account_ref` installs the freshly computed identity
as both account and claim reference exactly when the raw building-society
field is the four-character string `"0" ` (quoted zero followed by a
space); for every other raw value, including the bare `"0"` without the
trailing space, it keeps the caller-supplied original references. -/
theorem C4_set_account_ref (p : Payment) (orig_ref orig_claim : String) :
    (p.building_society_num = "\"0\" " →
      (set_account_ref p orig_ref orig_claim).account_ref
          = gen_account_ref (stripQS p.bank_sort_code) (stripQS p.bank_account_num)
        ∧ (set_account_ref p orig_ref orig_claim).claim_ref
          = gen_account_ref (stripQS p.bank_sort_code) (stripQS p.bank_account_num))
    ∧ (p.building_society_num ≠ "\"0\" " →
      (set_account_ref p orig_ref orig_claim).account_ref = orig_ref
        ∧ (set_account_ref p orig_ref orig_claim).claim_ref = orig_claim) := by
  unfold set_account_ref
  constructor <;> intro h <;> simp [h]

/-- C4 witness: the on-disk building-society value `"0" ` takes the
computed branch. -/
theorem C4_set_account_ref_witness :
    (set_account_ref bs0SpacePayment "\"ORIG\"" "\"OCLM\"").account_ref
      = gen_account_ref (stripQS bs0SpacePayment.bank_sort_code)
          (stripQS bs0SpacePayment.bank_account_num) :=
  ((C4_set_account_ref bs0SpacePayment "\"ORIG\"" "\"OCLM\"").1 (by decide)).1

/-! ## C5 and C10: the grouping dictionary -/

/-- `assign_keys` appends to each dictionary entry exactly the payments
whose key matches that entry, in input order. -/
theorem assign_keys_eq (payments : List Payment) (d : List (String × List Payment)) :
    assign_keys payments d
      = d.map fun e => (e.1, e.2 ++ payments.filter fun p => decide (pkey p = e.1)) := by
  induction payments generalizing d with
  | nil => simp [assign_keys]
  | cons p ps ih =>
    show assign_keys ps (addToKey d (pkey p) p) = _
    rw [ih, addToKey, List.map_map]
    congr 1
    funext e
    by_cases hk : e.1 = pkey p
    · simp [Function.comp, hk, List.filter_cons]
    · have hk' : ¬ pkey p = e.1 := fun h => hk h.symm
      simp [Function.comp, hk, hk', List.filter_cons]

theorem mkKeys_cons_seen (seen : List String) (a : String) (ks : List String)
    (ha : a ∈ seen) : mkKeys seen (a :: ks) = mkKeys seen ks := by
  simp [mkKeys, ha]

theorem mkKeys_cons_not_seen (seen : List String) (a : String) (ks : List String)
    (ha : a ∉ seen) : mkKeys seen (a :: ks) = (a, []) :: mkKeys (a :: seen) ks := by
  simp [mkKeys, ha]

/-- Every entry produced by the dictionary comprehension has the empty
list as its value. -/
theorem mkKeys_snd_nil (ks : List String) :
    ∀ (seen : List String), ∀ e ∈ mkKeys seen ks, e.2 = ([] : List Payment) := by
  induction ks with
  | nil => intro seen e he; simp [mkKeys] at he
  | cons a ks ih =>
    intro seen e he
    by_cases ha : a ∈ seen
    · rw [mkKeys_cons_seen seen a ks ha] at he
      exact ih seen e he
    · rw [mkKeys_cons_not_seen seen a ks ha] at he
      rcases List.mem_cons.mp he with rfl | h'
      · rfl
      · exact ih (a :: seen) e h'

/-- Every key produced by the dictionary comprehension was not already
seen. -/
theorem mkKeys_fst_not_seen (ks : List String) :
    ∀ (seen : List String), ∀ k ∈ (mkKeys seen ks).map Prod.fst, k ∉ seen := by
  induction ks with
  | nil => intro seen k hk; simp [mkKeys] at hk
  | cons a ks ih =>
    intro seen k hk
    by_cases ha : a ∈ seen
    · rw [mkKeys_cons_seen seen a ks ha] at hk
      exact ih seen k hk
    · rw [mkKeys_cons_not_seen seen a ks ha, List.map_cons] at hk
      rcases List.mem_cons.mp hk with rfl | h'
      · exact ha
      · intro hs
        exact ih (a :: seen) k h' (List.mem_cons_of_mem a hs)

/-- The keys of the dictionary comprehension are distinct. -/
theorem mkKeys_fst_nodup (ks : List String) :
    ∀ (seen : List String), ((mkKeys seen ks).map Prod.fst).Nodup := by
  induction ks with
  | nil => intro seen; simp [mkKeys]
  | cons a ks ih =>
    intro seen
    by_cases ha : a ∈ seen
    · rw [mkKeys_cons_seen seen a ks ha]
      exact ih seen
    · rw [mkKeys_cons_not_seen seen a ks ha, List.map_cons]
      refine List.nodup_cons.mpr ⟨?_, ih (a :: seen)⟩
      intro hmem
      exact mkKeys_fst_not_seen ks (a :: seen) a hmem (List.mem_cons_self a seen)

/-- Every unseen key of the input list appears among the comprehension's
keys. -/
theorem mkKeys_mem_of (ks : List String) :
    ∀ (seen : List String), ∀ k ∈ ks, k ∉ seen → k ∈ (mkKeys seen ks).map Prod.fst := by
  induction ks with
  | nil => intro seen k hk; cases hk
  | cons a ks ih =>
    intro seen k hk hs
    by_cases ha : a ∈ seen
    · rcases List.mem_cons.mp hk with rfl | hk'
      · exact absurd ha hs
      · rw [mkKeys_cons_seen seen a ks ha]
        exact ih seen k hk' hs
    · rw [mkKeys_cons_not_seen seen a ks ha, List.map_cons]
      rcases List.mem_cons.mp hk with rfl | hk'
      · exact List.mem_cons_self k _
      · by_cases hak : k = a
        · subst hak
          exact List.mem_cons_self k _
        · have hs' : k ∉ a :: seen := by
            intro h
            rcases List.mem_cons.mp h with h | h
            · exact hak h
            · exact hs h
          exact List.mem_cons_of_mem a (ih (a :: seen) k hk' hs')

/-- The grouping dictionary after `create_keys` and `assign_keys`: each
entry holds exactly the input payments bearing its key. -/
theorem assign_create_filter (ps : List Payment) :
    ∀ e ∈ assign_keys ps (create_keys ps),
      e.2 = ps.filter fun p => decide (pkey p = e.1) := by
  intro e he
  rw [create_keys, assign_keys_eq] at he
  obtain ⟨e0, he0, rfl⟩ := List.mem_map.mp he
  have h0 : e0.2 = [] := mkKeys_snd_nil _ _ e0 he0
  simp [h0]

/-- Every payment's key owns an entry of the grouping dictionary. -/
theorem assign_create_mem (ps : List Payment) (p : Payment) (hp : p ∈ ps) :
    ∃ e ∈ assign_keys ps (create_keys ps), e.1 = pkey p ∧ p ∈ e.2 := by
  have hk : pkey p ∈ (mkKeys [] (ps.map pkey)).map Prod.fst :=
    mkKeys_mem_of (ps.map pkey) [] (pkey p) (List.mem_map_of_mem pkey hp)
      (List.not_mem_nil _)
  obtain ⟨e0, he0, hfst⟩ := List.mem_map.mp hk
  refine ⟨(e0.1, e0.2 ++ ps.filter fun q => decide (pkey q = e0.1)), ?_, hfst, ?_⟩
  · rw [create_keys, assign_keys_eq]
    exact List.mem_map_of_mem _ he0
  · have h0 : e0.2 = [] := mkKeys_snd_nil _ _ e0 he0
    simp only [h0, List.nil_append]
    exact List.mem_filter.mpr ⟨hp, by simp [hfst]⟩

/-- C5 counterexample: two payments whose account references and
building-society fields agree after the specification's normalization
(quotes and surrounding whitespace stripped) are nonetheless placed in
different groups, because the code slices characters positionally and the
trailing space after the closing quote of `"A" ` survives inside the
key. -/
theorem C5_counterexample :
    specNormalize cexPay1.account_ref = specNormalize cexPay2.account_ref
    ∧ specNormalize cexPay1.building_society_num
        = specNormalize cexPay2.building_society_num
    ∧ ¬ ∃ e ∈ assign_keys [cexPay1, cexPay2] (create_keys [cexPay1, cexPay2]),
        cexPay1 ∈ e.2 ∧ cexPay2 ∈ e.2 := by
  decide

/-- C5 (amended): two payments of one run land in the same aggregation
group if and only if their primary keys agree, where the key is the
account reference with first and last character sliced off and the
building-society field with first character and last two characters
sliced off, joined by `/` — exact string equality of these positionally
sliced keys, not equality after a general quote/whitespace
normalization. -/
theorem C5_grouping (ps : List Payment) (p1 p2 : Payment)
    (h1 : p1 ∈ ps) (h2 : p2 ∈ ps) :
    (∃ e ∈ assign_keys ps (create_keys ps), p1 ∈ e.2 ∧ p2 ∈ e.2)
      ↔ pkey p1 = pkey p2 := by
  constructor
  · rintro ⟨e, he, hp1, hp2⟩
    have hfilter := assign_create_filter ps e he
    rw [hfilter] at hp1 hp2
    have k1 := of_decide_eq_true (List.mem_filter.mp hp1).2
    have k2 := of_decide_eq_true (List.mem_filter.mp hp2).2
    rw [k1, k2]
  · intro hkey
    obtain ⟨e, he, hfst, hp1⟩ := assign_create_mem ps p1 h1
    refine ⟨e, he, hp1, ?_⟩
    rw [assign_create_filter ps e he]
    exact List.mem_filter.mpr ⟨h2, by simp [hfst, hkey]⟩

/-- C5 witness: the iff instantiated on a concrete two-payment run. -/
theorem C5_grouping_witness :
    (∃ e ∈ assign_keys [cexPay1, cexPay2] (create_keys [cexPay1, cexPay2]),
        cexPay1 ∈ e.2 ∧ cexPay1 ∈ e.2)
      ↔ pkey cexPay1 = pkey cexPay1 :=
  C5_grouping [cexPay1, cexPay2] cexPay1 cexPay1 (by decide) (by decide)

theorem filter_cons_key_length (a : String) (K : List String) (hna : a ∉ K)
    (ps : List Payment) :
    (ps.filter fun p => decide (pkey p = a)).length
      + (ps.filter fun p => decide (pkey p ∈ K)).length
      = (ps.filter fun p => decide (pkey p ∈ a :: K)).length := by
  induction ps with
  | nil => simp
  | cons p ps ihp =>
    simp only [List.filter_cons]
    by_cases h1 : pkey p = a
    · have h2 : pkey p ∉ K := fun hm => hna (h1 ▸ hm)
      have hmem : pkey p ∈ a :: K := by
        rw [h1]
        exact List.mem_cons_self a K
      rw [if_pos (decide_eq_true h1), if_neg (fun hc => h2 (of_decide_eq_true hc)),
        if_pos (decide_eq_true hmem)]
      simp only [List.length_cons]
      omega
    · by_cases h2 : pkey p ∈ K
      · have hmem : pkey p ∈ a :: K := List.mem_cons_of_mem a h2
        rw [if_neg (fun hc => h1 (of_decide_eq_true hc)), if_pos (decide_eq_true h2),
          if_pos (decide_eq_true hmem)]
        simp only [List.length_cons]
        omega
      · have hmem : pkey p ∉ a :: K := by
          intro h
          rcases List.mem_cons.mp h with h | h
          · exact h1 h
          · exact h2 h
        rw [if_neg (fun hc => h1 (of_decide_eq_true hc)),
          if_neg (fun hc => h2 (of_decide_eq_true hc)),
          if_neg (fun hc => hmem (of_decide_eq_true hc))]
        exact ihp

theorem sum_filter_eq_filter_mem (ps : List Payment) (K : List String)
    (hN : K.Nodup) :
    (K.map fun k => (ps.filter fun p => decide (pkey p = k)).length).sum
      = (ps.filter fun p => decide (pkey p ∈ K)).length := by
  induction K with
  | nil => simp
  | cons a K ih =>
    simp only [List.map_cons, List.sum_cons]
    rw [ih (List.nodup_cons.mp hN).2]
    exact filter_cons_key_length a K (List.nodup_cons.mp hN).1 ps

/-- C10: running `create_keys` then `assign_keys` partitions the input
payments: every entry holds exactly the input payments bearing its key in
input order, the group sizes sum to the input length, and every input
payment belongs to some group. -/
theorem C10_partition (ps : List Payment) :
    (∀ e ∈ assign_keys ps (create_keys ps),
        e.2 = ps.filter fun p => decide (pkey p = e.1))
    ∧ ((assign_keys ps (create_keys ps)).map fun e => e.2.length).sum = ps.length
    ∧ ∀ p ∈ ps, ∃ e ∈ assign_keys ps (create_keys ps), p ∈ e.2 := by
  refine ⟨assign_create_filter ps, ?_, ?_⟩
  · rw [create_keys, assign_keys_eq, List.map_map]
    have hmap :
        (mkKeys [] (ps.map pkey)).map
            ((fun e : String × List Payment => e.2.length) ∘
              fun e => (e.1, e.2 ++ ps.filter fun p => decide (pkey p = e.1)))
          = (mkKeys [] (ps.map pkey)).map
              (fun e => (ps.filter fun p => decide (pkey p = e.1)).length) := by
      apply List.map_congr_left
      intro e he
      have h0 : e.2 = [] := mkKeys_snd_nil _ _ e he
      simp [Function.comp, h0]
    rw [hmap]
    have hcomp :
        (mkKeys [] (ps.map pkey)).map
            (fun e => (ps.filter fun p => decide (pkey p = e.1)).length)
          = ((mkKeys [] (ps.map pkey)).map Prod.fst).map
              (fun k => (ps.filter fun p => decide (pkey p = k)).length) := by
      rw [List.map_map]
      rfl
    rw [hcomp, sum_filter_eq_filter_mem ps _ (mkKeys_fst_nodup _ _)]
    have hall : ∀ p ∈ ps, decide (pkey p ∈ (mkKeys [] (ps.map pkey)).map Prod.fst) = true := by
      intro p hp
      exact decide_eq_true
        (mkKeys_mem_of (ps.map pkey) [] (pkey p) (List.mem_map_of_mem pkey hp)
          (List.not_mem_nil _))
    rw [List.filter_eq_self.mpr hall]
  · intro p hp
    obtain ⟨e, he, _, hpe⟩ := assign_create_mem ps p hp
    exact ⟨e, he, hpe⟩

/-- C10 witness: the partition theorem instantiated on a concrete
two-payment run with distinct keys. -/
theorem C10_partition_witness :
    ((assign_keys [cexPay1, cexPay2] (create_keys [cexPay1, cexPay2])).map
      fun e => e.2.length).sum = 2 :=
  (C10_partition [cexPay1, cexPay2]).2.1

/-! ## C6: malformed record counts -/

/-- C6: the claim requires a `MalformedInputError` whenever the body line
count is not a positive multiple of 29, but `aggregate_payments.py`
defines no such error and performs no count check: on a file whose body
is 20 lines the final partial block's highest read offset is still in
range, so `create_payments` silently builds a `Payment` out of the
truncated block and succeeds; on a 10-line body the read runs out of
range and raises a bare `IndexError` (modelled as `none`), which is an
unhandled crash and not the claimed error. -/
theorem C6_no_malformed_check :
    malformedFile.length = 21
    ∧ (malformedFile.length - 1) % 29 ≠ 0
    ∧ create_payments "ST" malformedFile = some [truncatedPayment]
    ∧ create_payments "ST"
        ["HDR", "L01", "L02", "L03", "L04", "L05", "L06", "L07", "L08",
         "L09", "L10"] = none := by
  decide

/-! ## C9: payee name and bank account name coincide -/

theorem set_account_ref_names (p : Payment) (r c : String) :
    (set_account_ref p r c).payee_name = p.payee_name
    ∧ (set_account_ref p r c).bank_account_name = p.bank_account_name := by
  by_cases h : p.building_society_num = "\"0\" " <;>
    simp [set_account_ref, h]

theorem mkPaymentAt_names (st : String) (records : List String) (i : ℕ)
    (p : Payment) (h : mkPaymentAt st records i = some p) :
    p.payee_name = p.bank_account_name := by
  simp only [mkPaymentAt, Option.bind_eq_some, Option.map_eq_some'] at h
  obtain ⟨b1, h1, b2, h2, b3, h3, b4, h4, b5, h5, b6, h6, b7, h7, b8, h8,
    b9, h9, b10, h10, hp⟩ := h
  rw [← hp, (set_account_ref_names _ _ _).1, (set_account_ref_names _ _ _).2]

/-- C9: every payment built by `create_payments` has equal `payee_name`
and `bank_account_name` fields, because both are read from line `i + 17`
of the record block. -/
theorem C9_payee_eq_bank_account_name (st : String) (records : List String)
    (ps : List Payment) (h : create_payments st records = some ps) :
    ∀ p ∈ ps, p.payee_name = p.bank_account_name := by
  suffices haux : ∀ fuel i ps, aggLoop st records fuel i = some ps →
      ∀ p ∈ ps, p.payee_name = p.bank_account_name from haux _ _ ps h
  intro fuel
  induction fuel with
  | zero =>
    intro i ps h p hp
    unfold aggLoop at h
    split at h
    · exact Option.noConfusion h
    · cases h
      cases hp
  | succ fuel ih =>
    intro i ps h p hp
    unfold aggLoop at h
    split at h
    · cases hmk : mkPaymentAt st records i with
      | none => rw [hmk] at h; exact Option.noConfusion h
      | some q =>
        rw [hmk] at h
        cases hrec : aggLoop st records fuel (i + 29) with
        | none => rw [hrec] at h; exact Option.noConfusion h
        | some l =>
          rw [hrec] at h
          simp only [Option.some_bind, Option.map_some'] at h
          cases h
          rcases List.mem_cons.mp hp with rfl | hp'
          · exact mkPaymentAt_names st records i p hmk
          · exact ih (i + 29) l hrec p hp'
    · cases h
      cases hp

/-- C9 witness: the theorem instantiated at a concrete parsed file. -/
theorem C9_payee_eq_bank_account_name_witness :
    truncatedPayment.payee_name = truncatedPayment.bank_account_name :=
  C9_payee_eq_bank_account_name "ST" malformedFile [truncatedPayment] (by decide)
    truncatedPayment (by decide)

/-! ## C8: serialization round trip -/

theorem set_account_ref_of_nonzero (p : Payment) (r c : String)
    (h : p.building_society_num ≠ "\"0\" ") :
    set_account_ref p r c = { p with account_ref := r, claim_ref := c } := by
  simp [set_account_ref, h]

theorem set_account_ref_of_zero (p : Payment) (r c : String)
    (h : p.building_society_num = "\"0\" ") :
    set_account_ref p r c =
      { p with
          account_ref := gen_account_ref (stripQS p.bank_sort_code)
            (stripQS p.bank_account_num),
          claim_ref := gen_account_ref (stripQS p.bank_sort_code)
            (stripQS p.bank_account_num) } := by
  simp [set_account_ref, h]

/-- Re-parsing a serialized payment reduces to one `set_account_ref`
application on the record literal read back from the block. -/
theorem create_payments_serialize (st header : String) (p : Payment) :
    create_payments st (header :: serializePayment p)
      = some [set_account_ref
          { defaultPayment st with
              batch_run_id := p.batch_run_id
              posting_ref := p.posting_ref
              payee_name := p.bank_account_name
              payee_address := p.payee_address
              amount := p.amount
              bank_sort_code := p.bank_sort_code
              bank_account_num := p.bank_account_num
              bank_account_name := p.bank_account_name
              building_society_num := p.building_society_num }
          p.account_ref p.claim_ref] := rfl

/-- C8: serializing an aggregate `Payment` with the writer and re-parsing
the block through `create_payments` in the same run yields the same field
values — provided the payment's two name fields coincide (they do for
every parsed payment, since both read line 17), its boilerplate fields
carry the run's defaults (they do for every `sum_payments` output), and
its references are consistent with the resolver (a freshly computed
identity when the building-society field is the on-disk `"0" `). -/
theorem C8_round_trip (st header : String) (p : Payment)
    (hname : p.payee_name = p.bank_account_name)
    (hboiler : p.interface_source = "\"BEN\"" ∧ p.payee_type = "\"CL\""
      ∧ p.claimant_name = "\"Aggregated DHP UC Payment\""
      ∧ p.claimant_adddress = "\"Aggregated DHP UC Payment\""
      ∧ p.posting_start_date = "\"" ++ st ++ "\""
      ∧ p.posting_end_date = "\"" ++ st ++ "\""
      ∧ p.payment_method = "\"BACS\"" ∧ p.creditor_account_ref = "\"\""
      ∧ p.post_office_name = "\"\"" ∧ p.post_office_address = "\"\""
      ∧ p.collection_flag = "\"N\"" ∧ p.document_num = "\"\""
      ∧ p.document_type = "\"\"" ∧ p.replacement_flag = "\"N\""
      ∧ p.effective_date = "\"" ++ st ++ "\""
      ∧ p.blank_one = "\"\"" ∧ p.blank_two = "\"\""
      ∧ p.document_date = "\"\"")
    (href : p.building_society_num = "\"0\" " →
      p.account_ref = gen_account_ref (stripQS p.bank_sort_code)
          (stripQS p.bank_account_num)
        ∧ p.claim_ref = gen_account_ref (stripQS p.bank_sort_code)
          (stripQS p.bank_account_num)) :
    create_payments st (header :: serializePayment p) = some [p] := by
  obtain ⟨f01, f02, f03, f04, f05, f06, f07, f08, f09, f10, f11, f12, f13,
    f14, f15, f16, f17, f18, f19, f20, f21, f22, f23, f24, f25, f26, f27,
    f28, f29⟩ := p
  obtain ⟨rfl, rfl, rfl, rfl, rfl, rfl, rfl, rfl, rfl, rfl, rfl, rfl, rfl,
    rfl, rfl, rfl, rfl, rfl⟩ := hboiler
  dsimp only at hname href
  subst hname
  rw [create_payments_serialize]
  by_cases hbs : f19 = "\"0\" "
  · obtain ⟨ha, hc⟩ := href hbs
    rw [set_account_ref_of_zero _ _ _ hbs, ha, hc]
    rfl
  · rw [set_account_ref_of_nonzero _ _ _ hbs]
    rfl

/-- C8 witness: the round trip evaluated on a concrete aggregate-shaped
payment. -/
theorem C8_round_trip_witness :
    create_payments "ST" ("HDR" :: serializePayment truncatedPayment)
      = some [truncatedPayment] :=
  C8_round_trip "ST" "HDR" truncatedPayment (by decide) (by decide) (by decide)

/-! ## C7: failure part-way through the rewrite -/

theorem fsGet_set_same (fs : FS) (p : String) (v : List String) :
    fsGet (fsSet fs p v) p = some v := by
  induction fs with
  | nil => simp [fsSet, fsGet]
  | cons e fs ih =>
    by_cases h : e.1 = p
    · simp [fsSet, h, fsGet]
    · simp [fsSet, h, fsGet, ih]

theorem fsGet_set_other (fs : FS) (p q : String) (v : List String)
    (h : q ≠ p) : fsGet (fsSet fs p v) q = fsGet fs q := by
  induction fs with
  | nil => simp [fsSet, fsGet, Ne.symm h]
  | cons e fs ih =>
    by_cases h1 : e.1 = p
    · have h2 : e.1 ≠ q := fun hc => h (hc.symm.trans h1)
      simp [fsSet, h1, fsGet, Ne.symm h, h2]
    · simp [fsSet, h1, fsGet, ih]

theorem applyOp_other (fs : FS) (op : FOp) (q : String)
    (h : op.target ≠ q) : fsGet (applyOp fs op) q = fsGet fs q := by
  cases op with
  | copy s d =>
    cases hg : fsGet fs s with
    | none => simp [applyOp, hg]
    | some c => simp [applyOp, hg, fsGet_set_other fs d q c (Ne.symm h)]
  | truncate p => simp [applyOp, fsGet_set_other fs p q [] (Ne.symm h)]
  | writeLine p l => simp [applyOp, fsGet_set_other fs p q _ (Ne.symm h)]

theorem foldl_applyOp_other (ops : List FOp) (q : String)
    (h : ∀ op ∈ ops, op.target ≠ q) :
    ∀ fs : FS, fsGet (ops.foldl applyOp fs) q = fsGet fs q := by
  induction ops with
  | nil => intro fs; rfl
  | cons op ops ih =>
    intro fs
    rw [List.foldl_cons, ih (fun o ho => h o (List.mem_cons_of_mem op ho)),
      applyOp_other fs op q (h op (List.mem_cons_self op ops))]

/-- After the initial backup copy, every primitive step of
`write_payments` targets the source path or one of the two logs. -/
theorem wpOps_tail_target (fs : FS) (path backup wt : String)
    (pays : List Payment) (op : FOp)
    (hop : op ∈ (wpOps fs path backup wt pays).tail) :
    op.target = path ∨ op.target = alreadyCheckedLog ∨ op.target = paymentsLog := by
  simp only [wpOps, List.tail_cons] at hop
  rcases List.mem_cons.mp hop with rfl | hop
  · exact Or.inl rfl
  rcases List.mem_cons.mp hop with rfl | hop
  · exact Or.inl rfl
  rcases List.mem_append.mp hop with hj | hl
  · obtain ⟨l, hl, hopl⟩ := List.mem_flatten.mp hj
    obtain ⟨p, _, rfl⟩ := List.mem_map.mp hl
    obtain ⟨s, _, rfl⟩ := List.mem_map.mp hopl
    exact Or.inl rfl
  · rcases List.mem_cons.mp hl with rfl | hl
    · exact Or.inr (Or.inl rfl)
    rcases List.mem_cons.mp hl with rfl | hl
    · exact Or.inr (Or.inr rfl)
    · cases hl

/-- C7 counterexample: stopping `write_payments` three primitive steps in
(backup copy, in-place truncation, header write) — well before the end of
its step list — leaves the source file holding only the header line, not
its original contents: the code writes the new text directly into the
original file, so a failure part-way does corrupt it, contrary to the
claimed temporary-file-then-atomic-replace discipline. -/
theorem C7_counterexample :
    3 < (wpOps [("f", ["H", "X", "Y"])] "f" "b" "WT"
          [amtPayment "ST" "\"1.00\""]).length
    ∧ fsGet (wpRun [("f", ["H", "X", "Y"])] "f" "b" "WT"
          [amtPayment "ST" "\"1.00\""] 3) "f" = some ["H"]
    ∧ fsGet [("f", ["H", "X", "Y"])] "f" = some ["H", "X", "Y"]
    ∧ (["H"] : List String) ≠ ["H", "X", "Y"] := by
  decide

/-- C7 (amended): `write_payments` copies the pre-write original to the
backup path as its first step and only then rewrites the source file in
place (truncate, then write header and records directly to the original
path); there is no temporary file and no atomic replace, so after the
backup copy has succeeded every later failure point leaves the backup —
not the source file — holding the pre-write original. -/
theorem C7_backup_holds_original (fs : FS) (path backup wt : String)
    (pays : List Payment) (orig : List String) (k : ℕ)
    (horig : fsGet fs path = some orig)
    (hb1 : backup ≠ path) (hb2 : backup ≠ alreadyCheckedLog)
    (hb3 : backup ≠ paymentsLog) (hk : 1 ≤ k) :
    fsGet (wpRun fs path backup wt pays k) backup = some orig := by
  obtain ⟨j, rfl⟩ : ∃ j, k = j + 1 := ⟨k - 1, (Nat.succ_pred_eq_of_pos hk).symm⟩
  have htar : ∀ op ∈ (wpOps fs path backup wt pays).tail.take j,
      op.target ≠ backup := by
    intro op hop
    rcases wpOps_tail_target fs path backup wt pays op
        (List.take_subset _ _ hop) with h | h | h
    · rw [h]; exact Ne.symm hb1
    · rw [h]; exact Ne.symm hb2
    · rw [h]; exact Ne.symm hb3
  have hcopy : applyOp fs (FOp.copy path backup) = fsSet fs backup orig := by
    simp [applyOp, horig]
  show fsGet (((wpOps fs path backup wt pays).take (j + 1)).foldl applyOp fs)
      backup = some orig
  rw [show (wpOps fs path backup wt pays).take (j + 1)
      = FOp.copy path backup :: (wpOps fs path backup wt pays).tail.take j
      from rfl]
  rw [List.foldl_cons, hcopy,
    foldl_applyOp_other _ backup htar (fsSet fs backup orig)]
  exact fsGet_set_same fs backup orig

/-- C7 witness: the amended theorem at the concrete failure point used by
the counterexample — the backup already holds the original. -/
theorem C7_backup_holds_original_witness :
    fsGet (wpRun [("f", ["H", "X", "Y"])] "f" "b" "WT"
        [amtPayment "ST" "\"1.00\""] 3) "b" = some ["H", "X", "Y"] :=
  C7_backup_holds_original [("f", ["H", "X", "Y"])] "f" "b" "WT"
    [amtPayment "ST" "\"1.00\""] ["H", "X", "Y"] 3 (by decide) (by decide)
    (by decide) (by decide) (by decide)

end PayAgg
